import Mathlib

/-!
Verification of the `detone` Vietnamese tone-mark decomposition library
(`src/lib.rs`).

Characters are modelled as `Nat` code points (Rust `char` is a Unicode
scalar value, i.e. a `Nat` below 0x110000 outside the surrogate range).
The three packed lookup tables of the static `TONE_DATA` value are
transcribed literally.  The iterator adapter `DecomposeVietnamese` is
modelled as a state record holding the remaining upstream characters as
a list, the `pending` buffered character and the `orthographic` flag;
its `next` method becomes a pure function returning the yielded item
together with the successor state.
-/

set_option maxRecDepth 1000000

/-- Table `TONE_DATA.windows_1258_key`: code points with orthographic-only
decompositions (sorted, as required by `binary_search`). -/
def windows_1258_key : List Nat :=
  [0xC0, 0xC1, 0xC8, 0xC9, 0xCD, 0xD3, 0xD9, 0xDA,
   0xE0, 0xE1, 0xE8, 0xE9, 0xED, 0xF3, 0xF9, 0xFA]

/-- Table `TONE_DATA.windows_1258_value`: packed decompositions, positionally
matching `windows_1258_key`.  Low 7 bits: first code point; upper bit:
second code point minus 0x0300. -/
def windows_1258_value : List Nat :=
  [0x41, 0xC1, 0x45, 0xC5, 0xC9, 0xCF, 0x55, 0xD5,
   0x61, 0xE1, 0x65, 0xE5, 0xE9, 0xEF, 0x75, 0xF5]

/-- Table `TONE_DATA.middle_key`: code points minus 0xC3 with decompositions in
the middle set (sorted, as required by `binary_search`). -/
def middle_key : List Nat :=
  [0x00, 0x09, 0x0F, 0x12, 0x1A, 0x20, 0x29, 0x2F, 0x32, 0x3A,
   0x65, 0x66, 0xA5, 0xA6]

/-- Table `TONE_DATA.middle_value`: packed decompositions, positionally matching
`middle_key`.  Low 7 bits: first code point; the second code point follows
the special three-way rule implemented in `next`. -/
def middle_value : List Nat :=
  [0xC1, 0x49, 0x4F, 0xCF, 0x59, 0xE1, 0x69, 0x6F, 0xEF, 0x79,
   0xC9, 0xE9, 0xD5, 0xF5]

/-- Table `TONE_DATA.extensions_for_vietnamese`: packed decompositions for the
contiguous block starting at code point 0x1EA0, indexed densely.  Low 10
bits: first code point; upper 6 bits: second code point minus 0x0300. -/
def extensions_for_vietnamese : List Nat :=
  [0x8C41, 0x8C61, 0x2441, 0x2461, 0x04C2, 0x04E2, 0x00C2, 0x00E2,
   0x24C2, 0x24E2, 0x0CC2, 0x0CE2, 0x8CC2, 0x8CE2, 0x0502, 0x0503,
   0x0102, 0x0103, 0x2502, 0x2503, 0x0D02, 0x0D03, 0x8D02, 0x8D03,
   0x8C45, 0x8C65, 0x2445, 0x2465, 0x0C45, 0x0C65, 0x04CA, 0x04EA,
   0x00CA, 0x00EA, 0x24CA, 0x24EA, 0x0CCA, 0x0CEA, 0x8CCA, 0x8CEA,
   0x2449, 0x2469, 0x8C49, 0x8C69, 0x8C4F, 0x8C6F, 0x244F, 0x246F,
   0x04D4, 0x04F4, 0x00D4, 0x00F4, 0x24D4, 0x24F4, 0x0CD4, 0x0CF4,
   0x8CD4, 0x8CF4, 0x05A0, 0x05A1, 0x01A0, 0x01A1, 0x25A0, 0x25A1,
   0x0DA0, 0x0DA1, 0x8DA0, 0x8DA1, 0x8C55, 0x8C75, 0x2455, 0x2475,
   0x05AF, 0x05B0, 0x01AF, 0x01B0, 0x25AF, 0x25B0, 0x0DAF, 0x0DB0,
   0x8DAF, 0x8DB0, 0x0059, 0x0079, 0x8C59, 0x8C79, 0x2459, 0x2479,
   0x0C59, 0x0C79]

/-- Function `expand(u)`, i.e. `char::from_u32_unchecked(u32::from(u))`.  On code points
this is the identity; validity of the values it is applied to is the decode
safety property proved below. -/
def expand (u : Nat) : Nat := u

/-- Rust `usize::wrapping_sub` at the 64-bit width used by
`s.wrapping_sub(0x1EA0)`, written in a case-split form;
`wrappingSub64_spec` proves it equal to the usual `(a + 2^64 - b) % 2^64`
characterisation on 64-bit values. -/
def wrappingSub64 (a b : Nat) : Nat :=
  if b ≤ a then a - b else 18446744073709551616 - (b - a)

theorem wrappingSub64_spec (a b : Nat) (ha : a < 2 ^ 64) (hb : b < 2 ^ 64) :
    wrappingSub64 a b = (a + 2 ^ 64 - b) % 2 ^ 64 := by
  unfold wrappingSub64
  split <;> omega

/-- Rust `keys.binary_search(&k)` followed by indexing `values` at the found
position.  The key arrays are sorted with pairwise-distinct entries, so the
binary search succeeds exactly when a linear scan finds the key, at the same
(unique) index; we model that combined lookup as the linear scan pairing
each key with the positionally corresponding value. -/
def assocLookup : List Nat → List Nat → Nat → Option Nat
  | k :: ks, v :: vs, key => if key = k then some v else assocLookup ks vs key
  | _, _, _ => none

/-- The classification-and-decode logic of `DecomposeVietnamese::next`
(lines 284-318 of `src/lib.rs`) for one character `c` under flag
`orthographic`: `some (base, tone)` when `c` decomposes, `none` when it
passes through unchanged. -/
def decomposeChar (orthographic : Bool) (c : Nat) : Option (Nat × Nat) :=
  match extensions_for_vietnamese[wrappingSub64 c 0x1EA0]? with
  | some val =>
    some (expand (val &&& 0x3FF), expand ((val >>> 10) + 0x0300))
  | none =>
    match
      (if 0xC3 ≤ c ∧ c ≤ 0x169 then
        assocLookup middle_key middle_value ((c - 0xC3) % 256)
      else none) with
    | some val =>
      some (val &&& 0x7F,
        if val &&& 0x5F = 0x59 then 0x0301
        else if val >>> 7 = 0 then 0x0300
        else 0x0303)
    | none =>
      match
        (if orthographic ∧ 0xC0 ≤ c ∧ c ≤ 0xFA then
          assocLookup windows_1258_key windows_1258_value (c % 256)
        else none) with
      | some val => some (val &&& 0x7F, expand ((val >>> 7) + 0x0300))
      | none => none

/-- The `DecomposeVietnamese<I>` adapter: the upstream iterator is modelled
as the list of characters it has yet to yield. -/
structure DecomposeVietnamese where
  delegate : List Nat
  pending : Nat
  orthographic : Bool
deriving DecidableEq

/-- Method `Iterator::next` of `DecomposeVietnamese` (lines 277-322): returns the
yielded `Option<char>` and the successor state. -/
def DecomposeVietnamese.next (st : DecomposeVietnamese) :
    Option Nat × DecomposeVietnamese :=
  if st.pending ≠ 0 then
    (some st.pending, { st with pending := 0 })
  else
    match st.delegate with
    | [] => (none, st)
    | c :: rest =>
      match decomposeChar st.orthographic c with
      | some (base, tone) =>
        (some base, { st with delegate := rest, pending := tone })
      | none => (some c, { st with delegate := rest })

/-- Constructor `decompose_vietnamese_tones`: the constructor of the adapter, starting
with an empty pending buffer (the NUL sentinel, U+0000). -/
def decompose_vietnamese_tones (l : List Nat) (orthographic : Bool) :
    DecomposeVietnamese :=
  { delegate := l, pending := 0, orthographic := orthographic }

/-- Pull from the adapter at most `fuel` times, collecting the yielded
characters until the first `None`. -/
def runAux (fuel : Nat) (st : DecomposeVietnamese) : List Nat :=
  match fuel with
  | 0 => []
  | fuel + 1 =>
    match st.next with
    | (none, _) => []
    | (some c, st') => c :: runAux fuel st'

/-- The complete output sequence of the adapter.  Each remaining upstream
character contributes at most two outputs and the pending buffer at most
one, so `2 * length + 1` pulls always reach the terminal `None`
(`runAux_suff` below shows the fuel bound is never binding). -/
def runAll (st : DecomposeVietnamese) : List Nat :=
  runAux (2 * st.delegate.length + 1) st

/-- The characters one input character `c` contributes to the output. -/
def emitPiece (orthographic : Bool) (c : Nat) : List Nat :=
  match decomposeChar orthographic c with
  | some (b, t) => [b, t]
  | none => [c]

/-- Decode of a packed extension-table value. -/
def extDecode (val : Nat) : Nat × Nat :=
  (val &&& 0x3FF, (val >>> 10) + 0x0300)

/-- Decode of a packed middle-table value, including the three-way tone rule. -/
def middleDecode (val : Nat) : Nat × Nat :=
  (val &&& 0x7F,
    if val &&& 0x5F = 0x59 then 0x0301
    else if val >>> 7 = 0 then 0x0300
    else 0x0303)

/-- Decode of a packed windows-1258-table value. -/
def winDecode (val : Nat) : Nat × Nat :=
  (val &&& 0x7F, (val >>> 7) + 0x0300)

/-- Reverse lookup: recover the composed character whose table entry decodes
to the pair `(b, t)`, searching the tables in the same priority order the
transform uses. -/
def composeBack (orthographic : Bool) (b t : Nat) : Option Nat :=
  match extensions_for_vietnamese.findIdx? (fun v => extDecode v = (b, t)) with
  | some i => some (0x1EA0 + i)
  | none =>
    match middle_value.findIdx? (fun v => middleDecode v = (b, t)) with
    | some i => middle_key[i]?.map (fun k => 0xC3 + k)
    | none =>
      if orthographic then
        match windows_1258_value.findIdx? (fun v => winDecode v = (b, t)) with
        | some i => windows_1258_key[i]?
        | none => none
      else none

/-- Collapse one output piece: a decomposed `(base, tone)` pair is folded
back into the composed character via the table entry that produced it; a
pass-through piece is kept as is. -/
def collapsePiece (orthographic : Bool) (p : List Nat) : List Nat :=
  match p with
  | [b, t] =>
    match composeBack orthographic b t with
    | some c => [c]
    | none => p
  | _ => p

/-- Unicode scalar values: what Rust `char` may hold. -/
def isScalar (n : Nat) : Prop := n < 0xD800 ∨ (0xE000 ≤ n ∧ n ≤ 0x10FFFF)

instance (n : Nat) : Decidable (isScalar n) := by
  unfold isScalar; infer_instance

example : decomposeChar true 0x1EA0 = some (0x41, 0x323) := by decide
example : decomposeChar false 0xC1 = none := by decide
example : decomposeChar true 0xC1 = some (0x41, 0x301) := by decide
example : decomposeChar true 0xC3 = some (0x41, 0x303) := by decide
example : decomposeChar false 0xDD = some (0x59, 0x301) := by decide
example : decomposeChar true 0x7A = none := by decide
example : runAll (decompose_vietnamese_tones [0x1EA5] true) = [0xE2, 0x301] := by decide
example : runAll (decompose_vietnamese_tones [0xC1, 0x41] false) = [0xC1, 0x41] := by decide

/-! ## Structural lemmas about `decomposeChar` -/

theorem ext_lookup_eq_none (c : Nat)
    (h : ¬(0x1EA0 ≤ c ∧ c ≤ 0x1EF9)) :
    extensions_for_vietnamese[wrappingSub64 c 0x1EA0]? = none := by
  apply List.getElem?_eq_none
  have hlen : extensions_for_vietnamese.length = 90 := by decide
  rw [hlen]
  unfold wrappingSub64
  split <;> omega

theorem ext_lookup_in_range (c : Nat) (hge : 0x1EA0 ≤ c) :
    wrappingSub64 c 0x1EA0 = c - 0x1EA0 := by
  unfold wrappingSub64
  split <;> omega

theorem decomposeChar_none_outside (orth : Bool) (c : Nat)
    (h1 : ¬(0xC0 ≤ c ∧ c ≤ 0x169)) (h2 : ¬(0x1EA0 ≤ c ∧ c ≤ 0x1EF9)) :
    decomposeChar orth c = none := by
  unfold decomposeChar
  rw [ext_lookup_eq_none c h2]
  have hm : ¬(0xC3 ≤ c ∧ c ≤ 0x169) := by omega
  have hw : ¬((orth : Prop) ∧ 0xC0 ≤ c ∧ c ≤ 0xFA) := by
    rintro ⟨-, hA, hB⟩; omega
  simp only [if_neg hm, if_neg hw]

theorem decomposeChar_some_range (orth : Bool) (c : Nat) (p : Nat × Nat)
    (h : decomposeChar orth c = some p) :
    (0xC0 ≤ c ∧ c ≤ 0x169) ∨ (0x1EA0 ≤ c ∧ c ≤ 0x1EF9) := by
  by_contra hcon
  push_neg at hcon
  rw [decomposeChar_none_outside orth c
    (by intro hx; exact absurd (hcon.1 hx.1) (by omega))
    (by intro hx; exact absurd (hcon.2 hx.1) (by omega))] at h
  exact Option.noConfusion h

theorem decomposeChar_tone_ge (orth : Bool) (c b t : Nat)
    (h : decomposeChar orth c = some (b, t)) : 0x300 ≤ t := by
  unfold decomposeChar expand at h
  split at h
  · rename_i val heq
    injection h with h'
    injection h' with hb ht
    omega
  · split at h
    · rename_i val heq
      injection h with h'
      injection h' with hb ht
      subst ht
      split
      · omega
      · split <;> omega
    · split at h
      · rename_i val heq
        injection h with h'
        injection h' with hb ht
        omega
      · exact Option.noConfusion h

/-! ## Stepping lemmas for the adapter -/

theorem next_mk_drain (l : List Nat) (p : Nat) (o : Bool) (h : p ≠ 0) :
    DecomposeVietnamese.next ⟨l, p, o⟩ = (some p, ⟨l, 0, o⟩) := by
  simp [DecomposeVietnamese.next, h]

theorem next_mk_nil (o : Bool) :
    DecomposeVietnamese.next ⟨[], 0, o⟩ = (none, ⟨[], 0, o⟩) := rfl

theorem next_mk_cons_none (c : Nat) (rest : List Nat) (o : Bool)
    (h : decomposeChar o c = none) :
    DecomposeVietnamese.next ⟨c :: rest, 0, o⟩ = (some c, ⟨rest, 0, o⟩) := by
  simp [DecomposeVietnamese.next, h]

theorem next_mk_cons_some (c b t : Nat) (rest : List Nat) (o : Bool)
    (h : decomposeChar o c = some (b, t)) :
    DecomposeVietnamese.next ⟨c :: rest, 0, o⟩ = (some b, ⟨rest, t, o⟩) := by
  simp [DecomposeVietnamese.next, h]

theorem runAux_suff (o : Bool) (l : List Nat) (fuel : Nat)
    (hf : 2 * l.length + 1 ≤ fuel) :
    runAux fuel ⟨l, 0, o⟩ = (l.map (emitPiece o)).flatten := by
  induction l generalizing fuel with
  | nil =>
    cases fuel with
    | zero => omega
    | succ f =>
      simp [runAux, next_mk_nil]
  | cons c rest ih =>
    cases fuel with
    | zero => simp at hf
    | succ f =>
      have h1 : runAux (f + 1) ⟨c :: rest, 0, o⟩ =
          (match DecomposeVietnamese.next ⟨c :: rest, 0, o⟩ with
           | (none, _) => []
           | (some x, st') => x :: runAux f st') := rfl
      rcases hd : decomposeChar o c with - | ⟨b, t⟩
      · have hstep : runAux (f + 1) ⟨c :: rest, 0, o⟩ =
            c :: runAux f ⟨rest, 0, o⟩ := by
          rw [h1, next_mk_cons_none c rest o hd]
        have hrest : runAux f ⟨rest, 0, o⟩ = (rest.map (emitPiece o)).flatten := by
          apply ih
          simp at hf ⊢
          omega
        rw [hstep, hrest]
        simp [emitPiece, hd]
      · have ht : t ≠ 0 := by
          have := decomposeChar_tone_ge o c b t hd
          omega
        have hstep : runAux (f + 1) ⟨c :: rest, 0, o⟩ =
            b :: runAux f ⟨rest, t, o⟩ := by
          rw [h1, next_mk_cons_some c b t rest o hd]
        cases f with
        | zero => simp at hf
        | succ f' =>
          have h2 : runAux (f' + 1) ⟨rest, t, o⟩ =
              (match DecomposeVietnamese.next ⟨rest, t, o⟩ with
               | (none, _) => []
               | (some x, st') => x :: runAux f' st') := rfl
          have hstep2 : runAux (f' + 1) ⟨rest, t, o⟩ =
              t :: runAux f' ⟨rest, 0, o⟩ := by
            rw [h2, next_mk_drain rest t o ht]
          have hrest : runAux f' ⟨rest, 0, o⟩ = (rest.map (emitPiece o)).flatten := by
            apply ih
            simp at hf ⊢
            omega
          rw [hstep, hstep2, hrest]
          simp [emitPiece, hd]

theorem runAll_eq (o : Bool) (l : List Nat) :
    runAll (decompose_vietnamese_tones l o) = (l.map (emitPiece o)).flatten := by
  apply runAux_suff
  simp [decompose_vietnamese_tones]

/-! ## Bounded checks over the two code-point windows where lookups can hit -/

/-- Checker: a classification result has its tone among the five legal
combining marks. -/
def toneOkB (o : Option (Nat × Nat)) : Bool :=
  match o with
  | some (_, t) => t = 0x300 ∨ t = 0x301 ∨ t = 0x303 ∨ t = 0x309 ∨ t = 0x323
  | none => true

/-- Checker: both halves of a classification result are Unicode scalar
values. -/
def scalarOkB (o : Option (Nat × Nat)) : Bool :=
  match o with
  | some (b, t) => isScalar b ∧ isScalar t
  | none => true

theorem tone_ok_win1 : ∀ d < 0xAA, toneOkB (decomposeChar true (0xC0 + d))
    ∧ toneOkB (decomposeChar false (0xC0 + d)) := by decide

theorem tone_ok_win2 : ∀ d < 0x5A, toneOkB (decomposeChar true (0x1EA0 + d))
    ∧ toneOkB (decomposeChar false (0x1EA0 + d)) := by decide

theorem scalar_ok_win1 : ∀ d < 0xAA, scalarOkB (decomposeChar true (0xC0 + d))
    ∧ scalarOkB (decomposeChar false (0xC0 + d)) := by decide

theorem scalar_ok_win2 : ∀ d < 0x5A, scalarOkB (decomposeChar true (0x1EA0 + d))
    ∧ scalarOkB (decomposeChar false (0x1EA0 + d)) := by decide

theorem tone_ok_all (orth : Bool) (c : Nat) :
    toneOkB (decomposeChar orth c) = true := by
  rcases hd : decomposeChar orth c with - | p
  · simp [toneOkB]
  · rcases decomposeChar_some_range orth c p hd with ⟨h1, h2⟩ | ⟨h1, h2⟩
    · have hw := tone_ok_win1 (c - 0xC0) (by omega)
      have hc : 0xC0 + (c - 0xC0) = c := by omega
      rw [hc] at hw
      cases orth
      · rw [hd] at hw; exact hw.2
      · rw [hd] at hw; exact hw.1
    · have hw := tone_ok_win2 (c - 0x1EA0) (by omega)
      have hc : 0x1EA0 + (c - 0x1EA0) = c := by omega
      rw [hc] at hw
      cases orth
      · rw [hd] at hw; exact hw.2
      · rw [hd] at hw; exact hw.1

theorem scalar_ok_all (orth : Bool) (c : Nat) :
    scalarOkB (decomposeChar orth c) = true := by
  rcases hd : decomposeChar orth c with - | p
  · simp [scalarOkB]
  · rcases decomposeChar_some_range orth c p hd with ⟨h1, h2⟩ | ⟨h1, h2⟩
    · have hw := scalar_ok_win1 (c - 0xC0) (by omega)
      have hc : 0xC0 + (c - 0xC0) = c := by omega
      rw [hc] at hw
      cases orth
      · rw [hd] at hw; exact hw.2
      · rw [hd] at hw; exact hw.1
    · have hw := scalar_ok_win2 (c - 0x1EA0) (by omega)
      have hc : 0x1EA0 + (c - 0x1EA0) = c := by omega
      rw [hc] at hw
      cases orth
      · rw [hd] at hw; exact hw.2
      · rw [hd] at hw; exact hw.1

/-! ## Claim C5: exactly one legal tone mark per decomposition -/

/-- C5: whenever the transform splits a character, it emits exactly two
scalar values: the base followed by exactly one combining mark from
{U+0300, U+0301, U+0303, U+0309, U+0323}. -/
theorem one_tone_mark_per_split (orth : Bool) (c b t : Nat)
    (h : decomposeChar orth c = some (b, t)) :
    emitPiece orth c = [b, t] ∧
    runAll (decompose_vietnamese_tones [c] orth) = [b, t] ∧
    (t = 0x300 ∨ t = 0x301 ∨ t = 0x303 ∨ t = 0x309 ∨ t = 0x323) := by
  have hp : emitPiece orth c = [b, t] := by simp [emitPiece, h]
  refine ⟨hp, ?_, ?_⟩
  · rw [runAll_eq orth [c]]
    simp [hp]
  · have := tone_ok_all orth c
    rw [h] at this
    simpa [toneOkB, decide_eq_true_eq] using this

theorem one_tone_mark_per_split_witness :
    emitPiece true [0x1EA0].head! = [0x41, 0x323] ∧
    runAll (decompose_vietnamese_tones [0x1EA0] true) = [0x41, 0x323] ∧
    ((0x323 : Nat) = 0x300 ∨ (0x323 : Nat) = 0x301 ∨ (0x323 : Nat) = 0x303 ∨
      (0x323 : Nat) = 0x309 ∨ (0x323 : Nat) = 0x323) := by
  have := one_tone_mark_per_split true 0x1EA0 0x41 0x323 (by decide)
  simpa using this

/-! ## Claim C9: decode safety -/

/-- C9: for every input character and either flag value, both halves of a
decomposition are valid Unicode scalar values, so the unchecked `expand`
never receives an invalid value. -/
theorem decode_safety (orth : Bool) (c b t : Nat)
    (h : decomposeChar orth c = some (b, t)) :
    isScalar (expand b) ∧ isScalar (expand t) := by
  have := scalar_ok_all orth c
  rw [h] at this
  simpa [scalarOkB, expand, decide_eq_true_eq] using this

theorem decode_safety_witness :
    isScalar (expand 0x41) ∧ isScalar (expand 0x323) :=
  decode_safety true 0x1EA0 0x41 0x323 (by decide)

/-! ## Claim C2: the extension set (corrected range 0x1EA0..0x1EF9) -/

theorem ext_formula_win : ∀ d < 0x5A,
    (extensions_for_vietnamese[d]?).isSome = true
    ∧ decomposeChar true (0x1EA0 + d) =
        (extensions_for_vietnamese[d]?).map
          (fun val => (val &&& 0x3FF, (val >>> 10) + 0x0300))
    ∧ decomposeChar false (0x1EA0 + d) =
        (extensions_for_vietnamese[d]?).map
          (fun val => (val &&& 0x3FF, (val >>> 10) + 0x0300)) := by decide

/-- C2, counterexample to the claimed upper bound: the extension table has
90 entries, so code point 0x1EFA (= 0x1EA0 + 90) is NOT decomposed under
either flag; it passes through unchanged. -/
theorem extension_range_counterexample :
    decomposeChar false 0x1EFA = none ∧ decomposeChar true 0x1EFA = none ∧
    runAll (decompose_vietnamese_tones [0x1EFA] false) = [0x1EFA] ∧
    runAll (decompose_vietnamese_tones [0x1EFA] true) = [0x1EFA] := by decide

/-- C2 (amended): every character in the inclusive range 0x1EA0 to 0x1EF9
(the 90 entries of the extension table) is decomposed regardless of the
orthographic flag, via the entry at index `c - 0x1EA0`, decoded as
base = low 10 bits and tone = (value >> 10) + 0x0300. -/
theorem extension_set_unconditional (orth : Bool) (c : Nat)
    (h1 : 0x1EA0 ≤ c) (h2 : c ≤ 0x1EF9) :
    (extensions_for_vietnamese[c - 0x1EA0]?).isSome = true ∧
    decomposeChar orth c =
      (extensions_for_vietnamese[c - 0x1EA0]?).map
        (fun val => (val &&& 0x3FF, (val >>> 10) + 0x0300)) := by
  obtain ⟨d, rfl⟩ : ∃ d, c = 0x1EA0 + d := ⟨c - 0x1EA0, by omega⟩
  have hsub : 0x1EA0 + d - 0x1EA0 = d := by omega
  rw [hsub]
  have hw := ext_formula_win d (by omega)
  cases orth
  · exact ⟨hw.1, hw.2.2⟩
  · exact ⟨hw.1, hw.2.1⟩

theorem extension_set_unconditional_witness :
    (extensions_for_vietnamese[0x1EA0 - 0x1EA0]?).isSome = true ∧
    decomposeChar false 0x1EA0 =
      (extensions_for_vietnamese[0x1EA0 - 0x1EA0]?).map
        (fun val => (val &&& 0x3FF, (val >>> 10) + 0x0300)) :=
  extension_set_unconditional false 0x1EA0 (by decide) (by decide)

/-! ## Claim C3: orthographic gating of the windows-1258 set -/

theorem win_keys_all : ∀ c ∈ windows_1258_key,
    decomposeChar false c = none
    ∧ runAll (decompose_vietnamese_tones [c] false) = [c]
    ∧ (assocLookup windows_1258_key windows_1258_value c).isSome = true
    ∧ decomposeChar true c =
        (assocLookup windows_1258_key windows_1258_value c).map
          (fun val => (val &&& 0x7F, (val >>> 7) + 0x0300))
    ∧ runAll (decompose_vietnamese_tones [c] true) =
        [(assocLookup windows_1258_key windows_1258_value c).getD 0 &&& 0x7F,
         ((assocLookup windows_1258_key windows_1258_value c).getD 0 >>> 7) + 0x0300] := by
  decide

/-- C3: each of the 16 windows-1258 key characters passes through unchanged
when `orthographic = false`, and splits into base = low 7 bits of the packed
value followed by tone = (value >> 7) + 0x0300 when `orthographic = true`;
in particular U+00C1 yields U+0041 followed by U+0301. -/
theorem windows_1258_gating (c : Nat) (hk : c ∈ windows_1258_key) :
    decomposeChar false c = none ∧
    runAll (decompose_vietnamese_tones [c] false) = [c] ∧
    (assocLookup windows_1258_key windows_1258_value c).isSome = true ∧
    decomposeChar true c =
      (assocLookup windows_1258_key windows_1258_value c).map
        (fun val => (val &&& 0x7F, (val >>> 7) + 0x0300)) ∧
    runAll (decompose_vietnamese_tones [c] true) =
      [(assocLookup windows_1258_key windows_1258_value c).getD 0 &&& 0x7F,
       ((assocLookup windows_1258_key windows_1258_value c).getD 0 >>> 7) + 0x0300] ∧
    runAll (decompose_vietnamese_tones [0xC1] true) = [0x41, 0x301] := by
  have h := win_keys_all c hk
  refine ⟨h.1, h.2.1, h.2.2.1, h.2.2.2.1, h.2.2.2.2, ?_⟩
  decide

theorem windows_1258_gating_witness :
    decomposeChar false 0xC1 = none ∧
    runAll (decompose_vietnamese_tones [0xC1] false) = [0xC1] ∧
    (assocLookup windows_1258_key windows_1258_value 0xC1).isSome = true ∧
    decomposeChar true 0xC1 =
      (assocLookup windows_1258_key windows_1258_value 0xC1).map
        (fun val => (val &&& 0x7F, (val >>> 7) + 0x0300)) ∧
    runAll (decompose_vietnamese_tones [0xC1] true) =
      [(assocLookup windows_1258_key windows_1258_value 0xC1).getD 0 &&& 0x7F,
       ((assocLookup windows_1258_key windows_1258_value 0xC1).getD 0 >>> 7) + 0x0300] ∧
    runAll (decompose_vietnamese_tones [0xC1] true) = [0x41, 0x301] :=
  windows_1258_gating 0xC1 (by decide)

/-! ## Claim C4: the middle-set three-way tone rule -/

theorem mid_formula_win : ∀ d < 0xA7, d ∈ middle_key →
    (assocLookup middle_key middle_value d).isSome = true
    ∧ decomposeChar true (0xC3 + d) =
        (assocLookup middle_key middle_value d).map
          (fun val => (val &&& 0x7F,
            if val &&& 0x7F = 0x59 ∨ val &&& 0x7F = 0x79 then 0x301
            else if val >>> 7 = 0 then 0x300
            else 0x303))
    ∧ decomposeChar false (0xC3 + d) =
        (assocLookup middle_key middle_value d).map
          (fun val => (val &&& 0x7F,
            if val &&& 0x7F = 0x59 ∨ val &&& 0x7F = 0x79 then 0x301
            else if val >>> 7 = 0 then 0x300
            else 0x303)) := by decide

/-- C4: for every character in [0xC3, 0x169] whose offset is in the middle
key array, the emitted base is the low 7 bits of the packed value and the
tone is U+0301 when the base is Y or y, else U+0300 when the top bit is 0,
else U+0303 — under both values of the orthographic flag. -/
theorem middle_three_way (orth : Bool) (c : Nat)
    (h1 : 0xC3 ≤ c) (h2 : c ≤ 0x169) (hk : (c - 0xC3) ∈ middle_key) :
    (assocLookup middle_key middle_value (c - 0xC3)).isSome = true ∧
    decomposeChar orth c =
      (assocLookup middle_key middle_value (c - 0xC3)).map
        (fun val => (val &&& 0x7F,
          if val &&& 0x7F = 0x59 ∨ val &&& 0x7F = 0x79 then 0x301
          else if val >>> 7 = 0 then 0x300
          else 0x303)) := by
  obtain ⟨d, rfl⟩ : ∃ d, c = 0xC3 + d := ⟨c - 0xC3, by omega⟩
  have hsub : 0xC3 + d - 0xC3 = d := by omega
  rw [hsub] at hk ⊢
  have hw := mid_formula_win d (by omega) hk
  cases orth
  · exact ⟨hw.1, hw.2.2⟩
  · exact ⟨hw.1, hw.2.1⟩

theorem middle_three_way_witness :
    (assocLookup middle_key middle_value (0xC3 - 0xC3)).isSome = true ∧
    decomposeChar true 0xC3 =
      (assocLookup middle_key middle_value (0xC3 - 0xC3)).map
        (fun val => (val &&& 0x7F,
          if val &&& 0x7F = 0x59 ∨ val &&& 0x7F = 0x79 then 0x301
          else if val >>> 7 = 0 then 0x300
          else 0x303)) :=
  middle_three_way true 0xC3 (by decide) (by decide) (by decide)

/-! ## Claim C6: pending-drain contract and frame condition -/

/-- C6: when a tone mark is buffered, the next pull returns exactly it,
clears the single-character buffer, and leaves the upstream source and the
flag untouched (the source is not polled). -/
theorem pending_drain_frame (st : DecomposeVietnamese) (h : st.pending ≠ 0) :
    (st.next).1 = some st.pending ∧
    (st.next).2.pending = 0 ∧
    (st.next).2.delegate = st.delegate ∧
    (st.next).2.orthographic = st.orthographic := by
  simp [DecomposeVietnamese.next, h]

theorem pending_drain_frame_witness :
    ((DecomposeVietnamese.mk [0x41] 0x301 true).next).1 =
      some (DecomposeVietnamese.mk [0x41] 0x301 true).pending ∧
    ((DecomposeVietnamese.mk [0x41] 0x301 true).next).2.pending = 0 ∧
    ((DecomposeVietnamese.mk [0x41] 0x301 true).next).2.delegate =
      (DecomposeVietnamese.mk [0x41] 0x301 true).delegate ∧
    ((DecomposeVietnamese.mk [0x41] 0x301 true).next).2.orthographic =
      (DecomposeVietnamese.mk [0x41] 0x301 true).orthographic :=
  pending_drain_frame ⟨[0x41], 0x301, true⟩ (by decide)

/-! ## Claim C7: monotonicity in the orthographic flag -/

/-- C7: every character that decomposes with `orthographic = false`
decomposes to the identical pair with `orthographic = true`; the converse
fails, witnessed by U+00C1 which decomposes only orthographically. -/
theorem orthographic_monotone (c : Nat) (p : Nat × Nat)
    (h : decomposeChar false c = some p) :
    decomposeChar true c = some p ∧
    decomposeChar false 0xC1 = none ∧
    (decomposeChar true 0xC1).isSome = true := by
  refine ⟨?_, by decide, by decide⟩
  unfold decomposeChar at h ⊢
  rcases hext : extensions_for_vietnamese[wrappingSub64 c 0x1EA0]? with - | val
  · rw [hext] at h
    rcases hmid : (if 0xC3 ≤ c ∧ c ≤ 0x169 then
        assocLookup middle_key middle_value ((c - 0xC3) % 256)
      else none) with - | val2
    · rw [hmid] at h
      have hfalse : (if (false : Bool) ∧ 0xC0 ≤ c ∧ c ≤ 0xFA then
          assocLookup windows_1258_key windows_1258_value (c % 256)
        else none) = none := by
        simp
      rw [hfalse] at h
      simp at h
    · rw [hmid] at h
      exact h
  · rw [hext] at h
    exact h

theorem orthographic_monotone_witness :
    decomposeChar true 0xDD = some (0x59, 0x301) ∧
    decomposeChar false 0xC1 = none ∧
    (decomposeChar true 0xC1).isSome = true :=
  orthographic_monotone 0xDD (0x59, 0x301) (by decide)

/-! ## Claim C8: exhaustion stability -/

/-- Advance the adapter one pull, keeping only the successor state. -/
def advance (st : DecomposeVietnamese) : DecomposeVietnamese := (st.next).2

/-- C8: once a pull yields `None` (source exhausted, no pending tone),
every later pull yields `None` as well and the state never changes. -/
theorem exhaustion_stable (st : DecomposeVietnamese)
    (h : (st.next).1 = none) :
    ∀ n : Nat, ((advance^[n]) st).next = (none, (advance^[n]) st) := by
  obtain ⟨l, p, o⟩ := st
  have hp : p = 0 := by
    by_contra hp
    rw [next_mk_drain l p o hp] at h
    simp at h
  subst hp
  have hl : l = [] := by
    cases l with
    | nil => rfl
    | cons c rest =>
      rcases hd : decomposeChar o c with - | q
      · rw [next_mk_cons_none c rest o hd] at h
        simp at h
      · obtain ⟨b, t⟩ := q
        rw [next_mk_cons_some c b t rest o hd] at h
        simp at h
  subst hl
  intro n
  have hfix : advance ⟨[], 0, o⟩ = ⟨[], 0, o⟩ := by
    simp [advance, next_mk_nil]
  rw [Function.iterate_fixed hfix n]
  exact next_mk_nil o

theorem exhaustion_stable_witness :
    ((advance^[3]) ⟨[], 0, false⟩).next = (none, (advance^[3]) ⟨[], 0, false⟩) :=
  exhaustion_stable ⟨[], 0, false⟩ (by decide) 3

/-! ## Claim C10: soundness of the in-band NUL sentinel -/

/-- C10: no decomposition produces the tone U+0000, so the NUL
empty-buffer sentinel never collides with a buffered tone; an input
U+0000 is emitted unchanged exactly once, and the adapter is constructed
in the empty-buffer state. -/
theorem nul_sentinel_sound :
    (∀ (orth : Bool) (c b t : Nat), decomposeChar orth c = some (b, t) → t ≠ 0) ∧
    (∀ orth : Bool, decomposeChar orth 0 = none) ∧
    (∀ orth : Bool, runAll (decompose_vietnamese_tones [0] orth) = [0]) ∧
    (∀ (l : List Nat) (orth : Bool), (decompose_vietnamese_tones l orth).pending = 0) := by
  refine ⟨?_, ?_, ?_, ?_⟩
  · intro orth c b t h
    have := decomposeChar_tone_ge orth c b t h
    omega
  · intro orth
    cases orth <;> decide
  · intro orth
    cases orth <;> decide
  · intro l orth
    rfl

theorem nul_sentinel_sound_witness :
    (0x323 : Nat) ≠ 0 ∧ runAll (decompose_vietnamese_tones [0] true) = [0] :=
  ⟨nul_sentinel_sound.1 true 0x1EA0 0x41 0x323 (by decide),
   nul_sentinel_sound.2.2.1 true⟩

/-! ## Claim C1: round-trip order preservation -/

theorem piece_win1 : ∀ d < 0xAA,
    collapsePiece true (emitPiece true (0xC0 + d)) = [0xC0 + d]
    ∧ collapsePiece false (emitPiece false (0xC0 + d)) = [0xC0 + d] := by decide

theorem piece_win2 : ∀ d < 0x5A,
    collapsePiece true (emitPiece true (0x1EA0 + d)) = [0x1EA0 + d]
    ∧ collapsePiece false (emitPiece false (0x1EA0 + d)) = [0x1EA0 + d] := by decide

theorem piece_roundtrip (orth : Bool) (c : Nat) :
    collapsePiece orth (emitPiece orth c) = [c] := by
  rcases hd : decomposeChar orth c with - | p
  · simp [emitPiece, hd, collapsePiece]
  · rcases decomposeChar_some_range orth c p hd with ⟨h1, h2⟩ | ⟨h1, h2⟩
    · have hw := piece_win1 (c - 0xC0) (by omega)
      have hc : 0xC0 + (c - 0xC0) = c := by omega
      rw [hc] at hw
      cases orth
      · exact hw.2
      · exact hw.1
    · have hw := piece_win2 (c - 0x1EA0) (by omega)
      have hc : 0x1EA0 + (c - 0x1EA0) = c := by omega
      rw [hc] at hw
      cases orth
      · exact hw.2
      · exact hw.1

/-- C1: for every input and either flag, the transform's output is the
concatenation of one piece per input character, and collapsing each
decomposed piece back through the table entry that produced it restores
the input character-for-character, in order. -/
theorem roundtrip_order_preservation (orth : Bool) (input : List Nat) :
    runAll (decompose_vietnamese_tones input orth) =
      (input.map (emitPiece orth)).flatten ∧
    ((input.map (emitPiece orth)).map (collapsePiece orth)).flatten = input := by
  refine ⟨runAll_eq orth input, ?_⟩
  induction input with
  | nil => simp
  | cons c rest ih =>
    simp only [List.map_cons, List.flatten_cons, piece_roundtrip orth c, ih]
    simp
